import Mathlib

/-!
Verification of the mo-vector-python client library (`mo_vector/client/vector_client.py`
and `mo_vector/client/utils.py`) against its natural-language specification.

The Python code is shallowly embedded: dictionaries become association lists (Python
dicts preserve insertion order), `float` arithmetic is idealized as exact `ℚ` or `ℝ`
arithmetic, raising code returns `Except`, and the external database is modelled by
explicit parameters (row tables, leaf-predicate semantics, an execution oracle).
Python's stable `sorted` is modelled by a stable insertion sort: a stable sort with
respect to a total preorder has a unique result, so any stable sort models it.
-/

/-- Python `str.lower()` (ASCII case folding suffices for the keys at issue). -/
def pyLower (s : String) : String := ⟨s.data.map Char.toLower⟩

/-- Python `str.startswith(pre)`. -/
def pyStartsWith (s pre : String) : Bool := pre.data.isPrefixOf s.data

/-- ASCII whitespace, as stripped by Python `str.strip()`. -/
def isSpaceChar (c : Char) : Bool := c == ' ' || c == '\t' || c == '\n' || c == '\r'

/-- Python `str.strip()`. -/
def pyStrip (s : String) : String :=
  ⟨((s.data.dropWhile isSpaceChar).reverse.dropWhile isSpaceChar).reverse⟩

/-- Stable insertion into a descending-by-score list: `x` passes every earlier
element with a strictly greater score and lands before the first element whose
score is not greater, so ties keep the earlier element first. -/
def insertDescScore {α : Type} [LinearOrder α] (x : String × α) :
    List (String × α) → List (String × α)
  | [] => [x]
  | y :: ys => if x.2 < y.2 then y :: insertDescScore x ys else x :: y :: ys

/-- The unique stable descending-by-score sort of an association list; models
Python `sorted(d.items(), key=lambda x: x[1], reverse=True)`. -/
def sortDescScore {α : Type} [LinearOrder α] :
    List (String × α) → List (String × α)
  | [] => []
  | x :: xs => insertDescScore x (sortDescScore xs)

/-- A JSON-like value, as appears in metadata filter expressions. Objects are
association lists, matching Python dict insertion order. -/
inductive Json where
  | null : Json
  | bool (b : Bool) : Json
  | num (q : ℚ) : Json
  | str (s : String) : Json
  | arr (elems : List Json) : Json
  | obj (entries : List (String × Json)) : Json

/-- Recognizer for JSON objects (Python `isinstance(condition, dict)`). -/
def Json.isObj : Json → Bool
  | .obj _ => true
  | _ => false

/-- The comparison operators recognized by `_create_filter_clause`. -/
inductive FilterOp where
  | opIn : FilterOp
  | opNin : FilterOp
  | opGt : FilterOp
  | opGte : FilterOp
  | opLt : FilterOp
  | opLte : FilterOp
  | opEq : FilterOp
  | opNe : FilterOp
deriving DecidableEq

/-- The SQLAlchemy predicate tree built by `_build_filter_clause`.
`leaf op key v` stands for `json_extract(meta, "$.key") <op> v`;
`idIn ids` stands for `table.id.in_(ids)` (used by `delete`). -/
inductive Clause where
  | true_ : Clause
  | and_ (cs : List Clause) : Clause
  | or_ (cs : List Clause) : Clause
  | leaf (op : FilterOp) (key : String) (v : Json) : Clause
  | idIn (ids : List String) : Clause

/-- The bare operator keys rejected at top level by `_build_filter_clause`
(source list `["$in", "$nin", "$gt", "$gte", "$lt", "$lte", "$eq", "$ne"]`). -/
def operatorKeys : List String :=
  ["$in", "$nin", "$gt", "$gte", "$lt", "$lte", "$eq", "$ne"]

/-- `op in map(str.lower, value)` from `_create_filter_clause`. -/
def hasOpKey (value : List (String × Json)) (op : String) : Bool :=
  value.any (fun p => pyLower p.1 == op)

/-- `value_case_insensitive[op]`: the dict comprehension lowers every key, later
duplicates overwriting earlier ones, so lookup takes the last matching entry.
Only evaluated under a `hasOpKey` guard, so the `Json.null` default is never hit. -/
def lookupOp (value : List (String × Json)) (op : String) : Json :=
  (((value.map (fun p => (pyLower p.1, p.2))).reverse).lookup op).getD Json.null

/-- Embedding of `MoVectorClient._create_filter_clause`: given a field name and a
nested mapping, pick the first recognized operator in the source's check order
(`$in`, `$nin`, `$gt`, `$gte`, `$lt`, `$lte`, `$ne`, `$eq`); if none is
recognized the source logs a warning and returns `None`. -/
def create_filter_clause (key : String) (value : List (String × Json)) : Option Clause :=
  if hasOpKey value "$in" then some (.leaf .opIn key (lookupOp value "$in"))
  else if hasOpKey value "$nin" then some (.leaf .opNin key (lookupOp value "$nin"))
  else if hasOpKey value "$gt" then some (.leaf .opGt key (lookupOp value "$gt"))
  else if hasOpKey value "$gte" then some (.leaf .opGte key (lookupOp value "$gte"))
  else if hasOpKey value "$lt" then some (.leaf .opLt key (lookupOp value "$lt"))
  else if hasOpKey value "$lte" then some (.leaf .opLte key (lookupOp value "$lte"))
  else if hasOpKey value "$ne" then some (.leaf .opNe key (lookupOp value "$ne"))
  else if hasOpKey value "$eq" then some (.leaf .opEq key (lookupOp value "$eq"))
  else none

mutual

/-- Embedding of the `for key, value in filters.items()` loop body of
`MoVectorClient._build_filter_clause`, processing the entries in dict order and
collecting the produced clauses. A Python exception is an `Except.error`. -/
def build_filter_entries : List (String × Json) → Except String (List Clause)
  | [] => .ok []
  | (key, value) :: rest =>
    match build_filter_entry key value with
    | .error e => .error e
    | .ok cs =>
      match build_filter_entries rest with
      | .error e => .error e
      | .ok rs => .ok (cs ++ rs)
termination_by structural l => l

/-- One iteration of the loop in `_build_filter_clause`: `$and` / `$or`
(case-insensitive) recurse into the dict elements of the array, skipping
non-dict elements; a bare operator key raises `ValueError`; a field mapped to a
dict goes through `create_filter_clause` (omitting the clause when it returns
`None`); any other value compiles to a JSON-path equality. A combinator whose
value is not an array raises in Python (iteration over a non-sequence). -/
def build_filter_entry (key : String) (value : Json) : Except String (List Clause) :=
  if pyLower key == "$and" then
    match value with
    | .arr conditions =>
      match build_filter_conditions conditions with
      | .error e => .error e
      | .ok cs => .ok [Clause.and_ cs]
    | _ => .error "TypeError: combinator value is not a list"
  else if pyLower key == "$or" then
    match value with
    | .arr conditions =>
      match build_filter_conditions conditions with
      | .error e => .error e
      | .ok cs => .ok [Clause.or_ cs]
    | _ => .error "TypeError: combinator value is not a list"
  else if operatorKeys.contains (pyLower key) then
    .error ("ValueError: Operator " ++ key ++ " must be followed by a meta key.")
  else
    match value with
    | .obj entries =>
      match create_filter_clause key entries with
      | some c => .ok [c]
      | none => .ok []
    | _ => .ok [Clause.leaf .opEq key value]
termination_by structural value

/-- The `$and` / `$or` list comprehension: each dict element is compiled through
the full recursive `_build_filter_clause` (hence wrapped as
`and_(true, *clauses)`); non-dict elements are skipped. -/
def build_filter_conditions : List Json → Except String (List Clause)
  | [] => .ok []
  | condition :: rest =>
    match condition with
    | .obj entries =>
      match build_filter_entries entries with
      | .error e => .error e
      | .ok inner =>
        match build_filter_conditions rest with
        | .error e => .error e
        | .ok rs => .ok (Clause.and_ (Clause.true_ :: inner) :: rs)
    | _ => build_filter_conditions rest
termination_by structural l => l

end

/-- Embedding of `MoVectorClient._build_filter_clause`: `None` compiles to the
always-true predicate `sqlalchemy.true()`; a dict compiles to
`and_(true, *filter_clauses)`. -/
def build_filter_clause (filters : Option (List (String × Json))) : Except String Clause :=
  match filters with
  | none => .ok Clause.true_
  | some fs =>
    match build_filter_entries fs with
    | .error e => .error e
    | .ok cs => .ok (Clause.and_ (Clause.true_ :: cs))

mutual

/-- Truth of a compiled clause over one row, parameterized by the semantics
`sem` of the database-side JSON-path comparisons and `idSem` of `id IN (...)`. -/
def Clause.holdsB (sem : FilterOp → String → Json → Bool)
    (idSem : List String → Bool) : Clause → Bool
  | .true_ => true
  | .and_ cs => Clause.allHoldB sem idSem cs
  | .or_ cs => Clause.anyHoldB sem idSem cs
  | .leaf op key v => sem op key v
  | .idIn ids => idSem ids
termination_by structural c => c

/-- Conjunction of a clause list (SQL `AND`). -/
def Clause.allHoldB (sem : FilterOp → String → Json → Bool)
    (idSem : List String → Bool) : List Clause → Bool
  | [] => true
  | c :: cs => Clause.holdsB sem idSem c && Clause.allHoldB sem idSem cs
termination_by structural l => l

/-- Disjunction of a clause list (SQL `OR`). -/
def Clause.anyHoldB (sem : FilterOp → String → Json → Bool)
    (idSem : List String → Bool) : List Clause → Bool
  | [] => false
  | c :: cs => Clause.holdsB sem idSem c || Clause.anyHoldB sem idSem cs
termination_by structural l => l

end

/-- One row as seen by `_vector_search`: the database computes `distance` as the
distance between the row's embedding and the query vector; we take the per-row
distance values as given data (idealized as exact rationals). -/
structure QRow where
  id : String
  meta : Json
  document : String
  distance : ℚ

/-- Embedding of one bound filter of `_vector_search`:
`.filter(distance_col >= dis_lower_bound if dis_lower_bound else True)`.
Python truthiness makes both `None` and `0` falsy, so a zero bound yields the
trivial predicate `True` exactly like `None`. `cmp d b` is the comparison of
the row distance `d` against the bound `b`. -/
def bound_clause (bound : Option ℚ) (cmp : ℚ → ℚ → Bool) : ℚ → Bool :=
  match bound with
  | none => fun _ => true
  | some b => if b = 0 then (fun _ => true) else (fun d => cmp d b)

/-- Stable insertion into an ascending-by-distance row list (`ORDER BY distance`). -/
def insertAscDist (x : QRow) : List QRow → List QRow
  | [] => [x]
  | y :: ys => if y.distance < x.distance then y :: insertAscDist x ys else x :: y :: ys

/-- Ascending-by-distance sort of the result rows. -/
def sortAscDist : List QRow → List QRow
  | [] => []
  | x :: xs => insertAscDist x (sortAscDist xs)

/-- Embedding of `MoVectorClient._vector_search`: the SELECT applies the
compiled meta filter (abstracted as a row predicate), then the lower and upper
bound filters, orders ascending by distance, and limits to `k` rows. -/
def vector_search (table : List QRow) (k : Nat) (filter_pred : QRow → Bool)
    (dis_lower_bound dis_upper_bound : Option ℚ) : List QRow :=
  (sortAscDist
    (((table.filter filter_pred).filter
        (fun r => bound_clause dis_lower_bound (fun d b => decide (b ≤ d)) r.distance)).filter
        (fun r => bound_clause dis_upper_bound (fun d b => decide (d ≤ b)) r.distance))).take k

/-- One stored row as seen by `delete` (only `id` and `meta` matter there). -/
structure Record where
  id : String
  meta : Json

/-- Embedding of `MoVectorClient.delete`: builds the filter clause from the
optional `filter` dict, conjoins `id.in_(ids)` when `ids` is given, and issues
`DELETE ... WHERE clause`; the external database is modelled as a row list from
which exactly the rows satisfying the clause are removed. `sem op key v meta`
gives the database's truth value of `json_extract(meta, "$.key") <op> v`. -/
def delete (sem : FilterOp → String → Json → Json → Bool) (table : List Record)
    (ids : Option (List String)) (filter : Option (List (String × Json))) :
    Except String (List Record) :=
  match build_filter_clause filter with
  | .error e => .error e
  | .ok fc =>
    let filter_by := match ids with
      | some l => Clause.and_ [Clause.idIn l, fc]
      | none => fc
    .ok (table.filter (fun r =>
      !(Clause.holdsB (fun op key v => sem op key v r.meta)
          (fun l => l.contains r.id) filter_by)))

/-- Embedding of `EmbeddingColumnMismatchError` (utils.py): carries the
existing and the expected embedding column definitions. -/
structure EmbeddingColumnMismatchError where
  existing_col : String
  expected_col : String
deriving DecidableEq

/-- Embedding of the `DistanceStrategy` str-enum (only L2 is currently defined). -/
inductive DistanceStrategy where
  | l2 : DistanceStrategy
deriving DecidableEq

/-- The string value of a `DistanceStrategy` member (Python str-enum compares
equal to its string value). -/
def DistanceStrategy.value : DistanceStrategy → String
  | .l2 => "l2"

/-- The two exception kinds `_check_table_compatibility` can raise. -/
inductive CompatError where
  | mismatch (e : EmbeddingColumnMismatchError) : CompatError
  | valueError (msg : String) : CompatError
deriving DecidableEq

/-- Python `f"{x}"` applied to an optional int: `None` renders as `"None"`. -/
def fmtPyOpt : Option Nat → String
  | none => "None"
  | some n => toString n

/-- `DistanceStrategy(s)`: the str-enum constructor raises `ValueError` for any
string other than `"l2"`. -/
def DistanceStrategy.ofString (s : String) : Except CompatError DistanceStrategy :=
  if s == "l2" then .ok .l2
  else .error (.valueError ("ValueError: " ++ s ++ " is not a valid DistanceStrategy"))

/-- Embedding of `MoVectorClient._check_table_compatibility`. The stored
column's dimension and metric (read from the database by
`get_embedding_column_definition`) enter as `actual_dim` /
`actual_distance_strategy`. Returns the possibly-updated
`(_vector_dimension, _distance_strategy)` pair, or the raised error. -/
def check_table_compatibility (drop_existing_table : Bool)
    (vector_dimension : Option Nat) (distance_strategy : Option DistanceStrategy)
    (actual_dim : Option Nat) (actual_distance_strategy : Option String) :
    Except CompatError (Option Nat × Option DistanceStrategy) :=
  if drop_existing_table then .ok (vector_dimension, distance_strategy)
  else
    let step1 : Except CompatError (Option Nat) :=
      match actual_dim with
      | some a =>
        match vector_dimension with
        | none => .ok (some a)
        | some v =>
          if a ≠ v then
            .error (.mismatch ⟨"vecf64(" ++ toString a ++ ")",
                               "vecf64(" ++ toString v ++ ")"⟩)
          else .ok (some v)
      | none => .ok vector_dimension
    match step1 with
    | .error e => .error e
    | .ok vdim1 =>
      match actual_distance_strategy with
      | some s =>
        match distance_strategy with
        | none =>
          match DistanceStrategy.ofString s with
          | .error e => .error e
          | .ok d => .ok (vdim1, some d)
        | some d =>
          if s ≠ d.value then
            .error (.mismatch
              ⟨"vecf64(" ++ fmtPyOpt actual_dim ++ ") COMMENT \x27hnsw(distance=" ++ s ++ ")\x27",
               "vecf64(" ++ fmtPyOpt vdim1 ++ ") COMMENT \x27hnsw(distance=" ++ d.value ++ ")\x27"⟩)
          else .ok (vdim1, some d)
      | none => .ok (vdim1, distance_strategy)

/-- What one underlying statement execution yields when it does not fail:
fetched rows and an affected-row count. -/
structure DbOutcome where
  rows : List (List Json)
  rowcount : Int

/-- The `result` field of the envelope returned by `execute`: fetched rows for
SELECT, affected-row count otherwise. -/
inductive ExecValue where
  | rows (rs : List (List Json)) : ExecValue
  | count (n : Int) : ExecValue

/-- The `{"success": ..., "result": ..., "error": ...}` dict returned by
`MoVectorClient.execute`. -/
structure ExecEnvelope where
  success : Bool
  result : Option ExecValue
  error : Option String

/-- Embedding of `MoVectorClient.execute`: the underlying session work (one
statement execution plus commit/fetch) is modelled by the oracle `db`, whose
`.error` case stands for any exception the `try` block catches. The embedding
is a total function into the envelope type: no exception escapes. -/
def execute (db : String → Option (List (String × Json)) → Except String DbOutcome)
    (sql : String) (params : Option (List (String × Json))) : ExecEnvelope :=
  match db sql params with
  | .error e => ⟨false, none, some e⟩
  | .ok r =>
    if pyStartsWith (pyLower (pyStrip sql)) "select" then ⟨true, some (.rows r.rows), none⟩
    else ⟨true, some (.count r.rowcount), none⟩

/-- Python dict accumulation `d[text] += s` / `d[text] = s` over an
insertion-ordered association list with unique keys: updating an existing key
keeps its position, a new key is appended at the end. -/
def addScore {α : Type} [Add α] (m : List (String × α)) (text : String) (s : α) :
    List (String × α) :=
  if m.any (fun p => p.1 == text) then
    m.map (fun p => if p.1 == text then (p.1, p.2 + s) else p)
  else m ++ [(text, s)]

/-- Embedding of `rrf_rerank` (utils.py): both result lists are enumerated from
rank 1, each occurrence contributes `1 / (rank_value + rank)` into the score
dict, and the dict items are sorted descending by score (Python `sorted` with
`reverse=True` is stable) before taking the top `k` as `(score, text)` pairs.
Python float arithmetic is idealized as exact `ℚ` arithmetic. -/
def rrf_rerank (vector_query_result full_text_query_result : List String)
    (k : Nat) (rank_value : ℚ) : List (ℚ × String) :=
  let rrf_scores := (List.enumFrom 1 vector_query_result).foldl
    (fun m p => addScore m p.2 (1 / (rank_value + (p.1 : ℚ)))) []
  let rrf_scores := (List.enumFrom 1 full_text_query_result).foldl
    (fun m p => addScore m p.2 (1 / (rank_value + (p.1 : ℚ)))) rrf_scores
  let sorted_results := sortDescScore rrf_scores
  (sorted_results.take k).map (fun p => (p.2, p.1))

/-- Embedding of `arctan_normalize` (utils.py), with `math.atan` idealized as
the real arctangent: `(1 / pi) * arctan(score) + 0.5`. -/
noncomputable def arctan_normalize (score : ℝ) : ℝ :=
  (1.0 / Real.pi) * Real.arctan score + 0.5

/-- Embedding of `convert_metric_score` (utils.py): the source overwrites
`metric_type` with `"l2"` before branching (pending MO 2.1.0), so every call
negates the score and normalizes. The dead branches are kept as in the source. -/
noncomputable def convert_metric_score (original_score : ℝ) (_metric_type_arg : String) : ℝ :=
  let metric_type := "l2"
  let score_for_arctan :=
    if ["l2", "euclidean"].contains (pyLower metric_type) then -original_score
    else if ["ip", "inner_product"].contains (pyLower metric_type) then original_score
    else if ["cosine"].contains (pyLower metric_type) then original_score
    else original_score
  arctan_normalize score_for_arctan

/-- `weights[0]` / `weights[1]` from `weighted_rank`: Python list indexing
raises `IndexError` when the weights list is too short. -/
def getWeightIdx (weights : List ℝ) (model_type : String) : Except String ℝ :=
  match (if model_type == "vector" then weights[0]? else weights[1]?) with
  | some w => .ok w
  | none => .error "IndexError: list index out of range"

/-- The `for score, text, model_type in all_results` loop of `weighted_rank`:
each entry `(rank, text, model_type)` contributes
`convert_metric_score(rank, model_type) * weight` into the score dict, where
the weight lookup can raise `IndexError`. -/
noncomputable def weightedScores (weights : List ℝ) :
    List (Nat × String × String) → List (String × ℝ) → Except String (List (String × ℝ))
  | [], m => .ok m
  | q :: L, m =>
    match getWeightIdx weights q.2.2 with
    | .error e => .error e
    | .ok weight =>
      weightedScores weights L (addScore m q.2.1 (convert_metric_score (q.1 : ℝ) q.2.2 * weight))

/-- Embedding of `weighted_rank` (utils.py): both result lists are enumerated
from rank 1 and tagged with their model type, each occurrence contributes
`convert_metric_score(rank, type) * weight` into the score dict, and the dict
items are sorted descending by score before taking the top `k`. Python float
arithmetic is idealized as exact `ℝ` arithmetic. -/
noncomputable def weighted_rank (vector_query_result full_text_query_result : List String)
    (k : Nat) (weights : List ℝ) : Except String (List (ℝ × String)) :=
  let all_results :=
    (List.enumFrom 1 vector_query_result).map (fun p => (p.1, p.2, "vector"))
    ++ (List.enumFrom 1 full_text_query_result).map (fun p => (p.1, p.2, "full_text"))
  match weightedScores weights all_results [] with
  | .error e => .error e
  | .ok doc_score_map =>
    let sorted_results := sortDescScore doc_score_map
    .ok ((sorted_results.take k).map (fun p => (p.2, p.1)))

/-- Deduplication keeping the first occurrence of each element. Used to model
`list(set(vector_data + full_text_data))`: Python set iteration order is
unspecified, so only order-insensitive facts (membership, duplicate-freedom,
length) are claimed about the fallback result. -/
def firstSeenDedup {α : Type} [BEq α] (l : List α) : List α :=
  l.foldl (fun acc a => if acc.contains a then acc else acc ++ [a]) []

/-- The `rerank_option` dict of `rerank_data` (utils.py), with its fields. -/
structure RerankOption where
  rerank_type : String
  rank_value : ℚ
  weighted_score : List ℝ
  rerank_score_threshold : ℚ

/-- The three possible shapes of a `rerank_data` return value. -/
inductive RerankResult where
  | rrf (l : List (ℚ × String)) : RerankResult
  | weighted (l : List (ℝ × String)) : RerankResult
  | union (l : List String) : RerankResult

/-- The items (document texts) of a rerank result, scores dropped. -/
def RerankResult.items : RerankResult → List String
  | .rrf l => l.map Prod.snd
  | .weighted l => l.map Prod.snd
  | .union l => l

/-- Embedding of `rerank_data` (utils.py): dispatches on `rerank_type`;
any type other than `"RRF"` and `"WeightedRank"` falls back to
`list(set(vector_data + full_text_data))` with no scoring and no `k` cap. -/
noncomputable def rerank_data (vector_data full_text_data : List String)
    (k : Nat) (rerank_option : RerankOption) : Except String RerankResult :=
  if rerank_option.rerank_type == "RRF" then
    .ok (.rrf (rrf_rerank vector_data full_text_data k rerank_option.rank_value))
  else if rerank_option.rerank_type == "WeightedRank" then
    match weighted_rank vector_data full_text_data k rerank_option.weighted_score with
    | .error e => .error e
    | .ok l => .ok (.weighted l)
  else
    .ok (.union (firstSeenDedup (vector_data ++ full_text_data)))

/-- Modelled from the claim wording for the RRF refinement: the total RRF
contribution of item `t` is the sum of `1 / (c + r)` over every 1-based rank
`r` at which `t` occurs in either list. -/
def rrfContribution (vector_list full_text_list : List String) (c : ℚ) (t : String) : ℚ :=
  (((List.enumFrom 1 vector_list) ++ (List.enumFrom 1 full_text_list)).filter
      (fun p => p.2 == t)).foldl (fun s p => s + 1 / (c + (p.1 : ℚ))) 0

/-- Modelled from the claim wording for the RRF refinement: items in first-seen
order (first list before second, earlier rank before later), each paired with
its accumulated contribution, stably sorted descending by score, top `k`
returned as `(score, item)` pairs. -/
def rrf_rerank_claim (vector_list full_text_list : List String) (k : Nat) (c : ℚ) :
    List (ℚ × String) :=
  let items := firstSeenDedup (vector_list ++ full_text_list)
  let scored := items.map (fun t => (t, rrfContribution vector_list full_text_list c t))
  ((sortDescScore scored).take k).map (fun p => (p.2, p.1))

/-- The accumulated contribution of item `t` over one enumerated list `L`:
the sum of `1 / (c + r)` over the entries `(r, t)` of `L`. `rrfContribution`
is this applied to the concatenation of both enumerated lists. -/
def rankContribution (c : ℚ) (L : List (Nat × String)) (t : String) : ℚ :=
  (L.filter (fun p => p.2 == t)).foldl (fun s p => s + 1 / (c + (p.1 : ℚ))) 0

/-- The keys of `addScore m t s`: unchanged if `t` is already a key, else `t`
is appended at the end. -/
theorem addScore_map_fst {α : Type} [Add α] (m : List (String × α)) (t : String) (s : α) :
    (addScore m t s).map Prod.fst =
      if m.any (fun p => p.1 == t) then m.map Prod.fst else m.map Prod.fst ++ [t] := by
  unfold addScore
  split
  · rw [List.map_map]
    refine List.map_congr_left fun p _ => ?_
    simp only [Function.comp_apply]
    split <;> rfl
  · simp

/-- `addScore` preserves duplicate-freedom of the dict keys. -/
theorem addScore_keys_nodup {α : Type} [Add α] {m : List (String × α)} (t : String) (s : α)
    (h : (m.map Prod.fst).Nodup) : ((addScore m t s).map Prod.fst).Nodup := by
  rw [addScore_map_fst]
  split
  · exact h
  · next hany =>
    have hnot : t ∉ m.map Prod.fst := by
      intro ht
      rcases List.mem_map.mp ht with ⟨p, hp, rfl⟩
      exact hany (List.any_eq_true.mpr ⟨p, hp, by simp⟩)
    refine List.Nodup.append h (List.nodup_singleton t) ?_
    intro x hx hxt
    rw [List.mem_singleton] at hxt
    exact hnot (hxt ▸ hx)

/-- Folding `addScore` steps over any list keeps the dict keys duplicate-free. -/
theorem foldl_addScore_keys_nodup {α β : Type} [Add α] (f : β → String) (g : β → α) :
    ∀ (L : List β) (m : List (String × α)), (m.map Prod.fst).Nodup →
      ((L.foldl (fun m p => addScore m (f p) (g p)) m).map Prod.fst).Nodup := by
  intro L
  induction L with
  | nil => intro m h; exact h
  | cons p L ih => intro m h; exact ih _ (addScore_keys_nodup _ _ h)

theorem insertDescScore_perm {α : Type} [LinearOrder α] (x : String × α)
    (l : List (String × α)) : (insertDescScore x l).Perm (x :: l) := by
  induction l with
  | nil => exact List.Perm.refl _
  | cons y ys ih =>
    unfold insertDescScore
    split
    · exact (ih.cons y).trans (List.Perm.swap x y ys)
    · exact List.Perm.refl _

/-- Sorting permutes: the sorted dict has exactly the original entries. -/
theorem sortDescScore_perm {α : Type} [LinearOrder α] (l : List (String × α)) :
    (sortDescScore l).Perm l := by
  induction l with
  | nil => exact List.Perm.refl _
  | cons x xs ih => exact (insertDescScore_perm x (sortDescScore xs)).trans (ih.cons x)

theorem sortDescScore_keys_nodup {α : Type} [LinearOrder α] {l : List (String × α)}
    (h : (l.map Prod.fst).Nodup) : ((sortDescScore l).map Prod.fst).Nodup :=
  (((sortDescScore_perm l).map Prod.fst).nodup_iff).mpr h

theorem take_keys_nodup {α : Type} {l : List (String × α)} (k : Nat)
    (h : (l.map Prod.fst).Nodup) : ((l.take k).map Prod.fst).Nodup :=
  List.Nodup.sublist ((List.take_sublist k l).map Prod.fst) h

/-- The items of the final `(score, text)` list are the keys of the dict list. -/
theorem swap_map_snd {α : Type} (l : List (String × α)) :
    ((l.map (fun p => (p.2, p.1))).map Prod.snd) = l.map Prod.fst := by
  simp [List.map_map]

theorem mem_foldl_dedup {α : Type} [BEq α] [LawfulBEq α] (x : α) :
    ∀ (l : List α) (acc : List α),
      x ∈ l.foldl (fun acc a => if acc.contains a then acc else acc ++ [a]) acc
        ↔ x ∈ acc ∨ x ∈ l := by
  intro l
  induction l with
  | nil => intro acc; simp
  | cons a l ih =>
    intro acc
    simp only [List.foldl_cons]
    by_cases h : acc.contains a
    · rw [if_pos h, ih]
      have ha : a ∈ acc := by
        simpa [List.contains, List.elem_iff] using h
      constructor
      · rintro (hx | hx)
        · exact Or.inl hx
        · exact Or.inr (List.mem_cons_of_mem a hx)
      · rintro (hx | hx)
        · exact Or.inl hx
        · rcases List.mem_cons.mp hx with rfl | hx
          · exact Or.inl ha
          · exact Or.inr hx
    · rw [if_neg h, ih]
      simp [List.mem_append, List.mem_cons]
      tauto

theorem mem_firstSeenDedup {α : Type} [BEq α] [LawfulBEq α] (x : α) (l : List α) :
    x ∈ firstSeenDedup l ↔ x ∈ l := by
  unfold firstSeenDedup
  rw [mem_foldl_dedup]
  simp

theorem nodup_foldl_dedup {α : Type} [BEq α] [LawfulBEq α] :
    ∀ (l : List α) (acc : List α), acc.Nodup →
      (l.foldl (fun acc a => if acc.contains a then acc else acc ++ [a]) acc).Nodup := by
  intro l
  induction l with
  | nil => intro acc h; exact h
  | cons a l ih =>
    intro acc h
    simp only [List.foldl_cons]
    by_cases hc : acc.contains a
    · rw [if_pos hc]; exact ih acc h
    · rw [if_neg hc]
      refine ih _ ?_
      have hnot : a ∉ acc := by
        intro hmem
        exact hc (by simpa [List.contains, List.elem_iff] using hmem)
      refine List.Nodup.append h (List.nodup_singleton a) ?_
      intro y hy hya
      rw [List.mem_singleton] at hya
      exact hnot (hya ▸ hy)

theorem firstSeenDedup_nodup {α : Type} [BEq α] [LawfulBEq α] (l : List α) :
    (firstSeenDedup l).Nodup :=
  nodup_foldl_dedup l [] List.nodup_nil

theorem firstSeenDedup_append_singleton {α : Type} [BEq α] (l : List α) (a : α) :
    firstSeenDedup (l ++ [a]) =
      if (firstSeenDedup l).contains a then firstSeenDedup l
      else firstSeenDedup l ++ [a] := by
  unfold firstSeenDedup
  rw [List.foldl_append]
  rfl

theorem rankContribution_append_singleton (c : ℚ) (L : List (Nat × String))
    (p : Nat × String) (t : String) :
    rankContribution c (L ++ [p]) t =
      rankContribution c L t + (if p.2 == t then 1 / (c + (p.1 : ℚ)) else 0) := by
  unfold rankContribution
  rw [List.filter_append]
  by_cases h : p.2 == t
  · simp [h, List.foldl_append]
  · simp [h, List.foldl_append]

theorem rankContribution_eq_zero_of_not_mem (c : ℚ) {L : List (Nat × String)} {t : String}
    (h : t ∉ L.map Prod.snd) : rankContribution c L t = 0 := by
  unfold rankContribution
  rw [List.filter_eq_nil_iff.mpr, List.foldl_nil]
  intro p hp hpt
  exact h (List.mem_map.mpr ⟨p, hp, by simpa using hpt⟩)

theorem foldl_addScore_canonical (c : ℚ) (L : List (Nat × String)) :
    L.foldl (fun m p => addScore m p.2 (1 / (c + (p.1 : ℚ)))) []
      = (firstSeenDedup (L.map Prod.snd)).map (fun t => (t, rankContribution c L t)) := by
  induction L using List.reverseRecOn with
  | nil => rfl
  | append_singleton L p ih =>
    rw [List.foldl_append, List.foldl_cons, List.foldl_nil, ih, List.map_append]
    simp only [List.map_cons, List.map_nil]
    rw [firstSeenDedup_append_singleton]
    by_cases hmem : (firstSeenDedup (List.map Prod.snd L)).contains p.2
    · rw [if_pos hmem]
      unfold addScore
      have hp2 : p.2 ∈ firstSeenDedup (List.map Prod.snd L) := by
        simpa [List.contains, List.elem_iff] using hmem
      have hany : ((firstSeenDedup (List.map Prod.snd L)).map
          (fun t => (t, rankContribution c L t))).any (fun q => q.1 == p.2) = true :=
        List.any_eq_true.mpr ⟨(p.2, rankContribution c L p.2),
          List.mem_map.mpr ⟨p.2, hp2, rfl⟩, by simp⟩
      rw [if_pos hany, List.map_map]
      refine List.map_congr_left fun t _ => ?_
      simp only [Function.comp_apply, rankContribution_append_singleton]
      by_cases ht : t = p.2
      · subst ht; simp
      · have h1 : (t == p.2) = false := by simpa using ht
        have h2 : (p.2 == t) = false := by simpa using fun h => ht h.symm
        simp [h1, h2]
    · rw [if_neg hmem]
      unfold addScore
      have hp2 : p.2 ∉ firstSeenDedup (List.map Prod.snd L) := fun h =>
        hmem (by simpa [List.contains, List.elem_iff] using h)
      have hany : ((firstSeenDedup (List.map Prod.snd L)).map
          (fun t => (t, rankContribution c L t))).any (fun q => q.1 == p.2) = false := by
        rw [List.any_eq_false]
        intro q hq
        rcases List.mem_map.mp hq with ⟨t, htm, rfl⟩
        simp only [beq_iff_eq]
        intro h
        exact hp2 (h ▸ htm)
      rw [if_neg (by simp [hany]), List.map_append]
      congr 1
      · refine List.map_congr_left fun t htmem => ?_
        have ht : t ≠ p.2 := by
          intro h
          subst h
          exact hmem (by simpa [List.contains, List.elem_iff] using htmem)
        have h2 : (p.2 == t) = false := by simpa using fun h => ht h.symm
        rw [rankContribution_append_singleton]
        simp [h2]
      · have hz : rankContribution c L p.2 = 0 := by
          refine rankContribution_eq_zero_of_not_mem c ?_
          intro h
          exact hmem (by
            simpa [List.contains, List.elem_iff] using
              (mem_firstSeenDedup p.2 (List.map Prod.snd L)).mpr h)
        simp [rankContribution_append_singleton, hz]

theorem rrf_rerank_eq_claim (vec ft : List String) (k : Nat) (c : ℚ) :
    rrf_rerank vec ft k c = rrf_rerank_claim vec ft k c := by
  unfold rrf_rerank rrf_rerank_claim
  simp only []
  rw [← List.foldl_append, foldl_addScore_canonical]
  rw [List.map_append, List.enumFrom_map_snd, List.enumFrom_map_snd]
  rfl

/-- C1: a distance bound of exactly 0 is NOT applied by `_vector_search`; the
Python truthiness test `if dis_lower_bound` treats `0` like `None`, so bound 0
is indistinguishable from no bound, and a row at distance 1 survives an upper
bound of 0. This evaluates the code at the failing input of the claim. -/
theorem c1_zero_bound_treated_as_unset :
    (∀ (table : List QRow) (k : Nat) (fp : QRow → Bool),
        vector_search table k fp (some 0) (some 0) = vector_search table k fp none none)
    ∧ vector_search [⟨"r1", Json.null, "doc", 1⟩] 5 (fun _ => true) none (some 0)
        = [⟨"r1", Json.null, "doc", 1⟩] := by
  constructor
  · intro table k fp
    simp [vector_search, bound_clause]
  · rfl

/-- C2: `rrf_rerank` assigns each item at 1-based rank `r` the contribution
`1 / (c + r)`, sums contributions across both lists, stably sorts descending
(ties keep first-seen order), and returns the top `k` as `(score, item)`
pairs; in particular the documented example with rank constant 60. -/
theorem c2_rrf_rerank_matches_spec :
    (∀ (vec ft : List String) (k : Nat) (c : ℚ),
        rrf_rerank vec ft k c = rrf_rerank_claim vec ft k c)
    ∧ rrf_rerank ["doc1", "doc2"] ["doc3", "doc4"] 4 60
        = [(1/61, "doc1"), (1/61, "doc3"), (1/62, "doc2"), (1/62, "doc4")] := by
  constructor
  · exact rrf_rerank_eq_claim
  · norm_num [rrf_rerank, addScore, sortDescScore, insertDescScore, List.enumFrom, List.foldl]

/-- C8: `execute` never raises: every underlying failure is caught and returned
as `{success: false, result: None, error: message}`, and every success returns
`{success: true, result: rows-or-rowcount, error: None}`. -/
theorem c8_execute_always_returns_envelope :
    ∀ (db : String → Option (List (String × Json)) → Except String DbOutcome)
      (sql : String) (params : Option (List (String × Json))),
      (∀ e, db sql params = .error e →
          execute db sql params = ⟨false, none, some e⟩)
      ∧ (∀ r, db sql params = .ok r →
          execute db sql params
            = ⟨true, some (if pyStartsWith (pyLower (pyStrip sql)) "select"
                           then .rows r.rows else .count r.rowcount), none⟩) := by
  intro db sql params
  constructor
  · intro e he
    unfold execute
    rw [he]
  · intro r hr
    unfold execute
    rw [hr]
    by_cases hsel : pyStartsWith (pyLower (pyStrip sql)) "select" <;> simp [hsel]

/-- Witness for C8 at concrete oracles: one failing execution and one
successful non-SELECT execution. -/
theorem c8_witness :
    execute (fun _ _ => .error "boom") "SELECT 1" none = ⟨false, none, some "boom"⟩
    ∧ execute (fun _ _ => .ok ⟨[], 3⟩) "UPDATE t SET x = 1" none
        = ⟨true, some (.count 3), none⟩ := by
  constructor
  · exact (c8_execute_always_returns_envelope (fun _ _ => .error "boom")
      "SELECT 1" none).1 "boom" rfl
  · have h := (c8_execute_always_returns_envelope (fun _ _ => .ok ⟨[], 3⟩)
      "UPDATE t SET x = 1" none).2 ⟨[], 3⟩ rfl
    rw [h]
    rfl

/-- C9: opening against a stored embedding column whose known dimension (or
metric) disagrees with the requested one raises
`EmbeddingColumnMismatchError` carrying both the existing and the expected
column definitions. The dimension conjunct covers every disagreeing pair; the
metric conjunct covers every open that passes the dimension step (stored
dimension absent, requested dimension absent and adopted, or both equal —
`adim.or vdim` is the requested dimension after that step) and has a
disagreeing metric; the concrete conjunct requests dimension 3 against stored
dimension 4. -/
theorem c9_open_mismatch_raises :
    (∀ (a v : Nat) (ds : Option DistanceStrategy) (ads : Option String), a ≠ v →
        check_table_compatibility false (some v) ds (some a) ads
          = .error (.mismatch ⟨"vecf64(" ++ toString a ++ ")",
                               "vecf64(" ++ toString v ++ ")"⟩))
    ∧ (∀ (adim vdim : Option Nat) (s : String) (d : DistanceStrategy),
        (adim = none ∨ vdim = none ∨ adim = vdim) → s ≠ d.value →
        check_table_compatibility false vdim (some d) adim (some s)
          = .error (.mismatch
              ⟨"vecf64(" ++ fmtPyOpt adim ++ ") COMMENT \x27hnsw(distance=" ++ s ++ ")\x27",
               "vecf64(" ++ fmtPyOpt (adim.or vdim)
                 ++ ") COMMENT \x27hnsw(distance=" ++ d.value ++ ")\x27"⟩))
    ∧ check_table_compatibility false (some 3) none (some 4) none
        = .error (.mismatch ⟨"vecf64(4)", "vecf64(3)"⟩) := by
  refine ⟨?_, ?_, rfl⟩
  · intro a v ds ads hne
    simp [check_table_compatibility, hne]
  · intro adim vdim s d hdim hne
    rcases hdim with rfl | rfl | heq
    · simp [check_table_compatibility, hne, Option.or]
    · cases adim with
      | none => simp [check_table_compatibility, hne, Option.or]
      | some a => simp [check_table_compatibility, hne, Option.or]
    · subst heq
      cases adim with
      | none => simp [check_table_compatibility, hne, Option.or]
      | some a => simp [check_table_compatibility, hne, Option.or]

/-- Witness for C9: stored dimension 4 vs requested 3; stored metric `cosine`
vs requested L2 with no stored dimension; and stored metric `cosine` vs
requested L2 on a column with known stored dimension 2 matching the request —
each rejected with both definitions in the payload. -/
theorem c9_witness :
    check_table_compatibility false (some 3) none (some 4) none
        = .error (.mismatch ⟨"vecf64(4)", "vecf64(3)"⟩)
    ∧ check_table_compatibility false none (some .l2) none (some "cosine")
        = .error (.mismatch
            ⟨"vecf64(None) COMMENT \x27hnsw(distance=cosine)\x27",
             "vecf64(None) COMMENT \x27hnsw(distance=l2)\x27"⟩)
    ∧ check_table_compatibility false (some 2) (some .l2) (some 2) (some "cosine")
        = .error (.mismatch
            ⟨"vecf64(2) COMMENT \x27hnsw(distance=cosine)\x27",
             "vecf64(2) COMMENT \x27hnsw(distance=l2)\x27"⟩) := by
  refine ⟨?_, ?_, ?_⟩
  · exact c9_open_mismatch_raises.1 4 3 none none (by decide)
  · exact c9_open_mismatch_raises.2.1 none none "cosine" .l2 (Or.inl rfl) (by decide)
  · exact c9_open_mismatch_raises.2.1 (some 2) (some 2) "cosine" .l2
      (Or.inr (Or.inr rfl)) (by decide)

theorem weightedScores_keys_nodup (weights : List ℝ) :
    ∀ (L : List (Nat × String × String)) (m r : List (String × ℝ)),
      (m.map Prod.fst).Nodup → weightedScores weights L m = .ok r →
      (r.map Prod.fst).Nodup := by
  intro L
  induction L with
  | nil =>
    intro m r h hok
    cases hok
    exact h
  | cons q L ih =>
    intro m r h hok
    unfold weightedScores at hok
    cases hw : getWeightIdx weights q.2.2 with
    | error e =>
      rw [hw] at hok
      exact Except.noConfusion hok
    | ok w =>
      rw [hw] at hok
      exact ih _ r (addScore_keys_nodup _ _ h) hok

/-- The RRF branch of `rerank_data` always returns a duplicate-free item list
of length at most `k`. -/
theorem rrf_rerank_nodup_cap (vec ft : List String) (k : Nat) (c : ℚ) :
    ((rrf_rerank vec ft k c).map Prod.snd).Nodup ∧ (rrf_rerank vec ft k c).length ≤ k := by
  unfold rrf_rerank
  simp only []
  constructor
  · rw [swap_map_snd]
    exact take_keys_nodup _ (sortDescScore_keys_nodup
      (foldl_addScore_keys_nodup _ _ _ _ (foldl_addScore_keys_nodup _ _ _ _ (by simp))))
  · rw [List.length_map]
    exact List.length_take_le _ _

/-- The WeightedRank branch of `rerank_data`, when it returns at all, returns a
duplicate-free item list of length at most `k`. -/
theorem weighted_rank_nodup_cap (vec ft : List String) (k : Nat) (ws : List ℝ)
    (l : List (ℝ × String)) (hok : weighted_rank vec ft k ws = .ok l) :
    (l.map Prod.snd).Nodup ∧ l.length ≤ k := by
  unfold weighted_rank at hok
  simp only [] at hok
  cases hws : weightedScores ws
      ((List.enumFrom 1 vec).map (fun p => (p.1, p.2, "vector"))
        ++ (List.enumFrom 1 ft).map (fun p => (p.1, p.2, "full_text"))) [] with
  | error e =>
    rw [hws] at hok
    exact Except.noConfusion hok
  | ok dsm =>
    rw [hws] at hok
    cases hok
    constructor
    · rw [swap_map_snd]
      exact take_keys_nodup _ (sortDescScore_keys_nodup
        (weightedScores_keys_nodup ws _ _ _ (by simp) hws))
    · rw [List.length_map]
      exact List.length_take_le _ _

/-- C4 (amended): whenever `rerank_data` returns a list, its items are
deduplicated for every rerank type; the length is capped at `k` for the RRF and
WeightedRank types, while the fallback set-union is NOT capped at `k`. -/
theorem c4_rerank_dedup_and_cap :
    ∀ (vd ftd : List String) (k : Nat) (opt : RerankOption) (res : RerankResult),
      rerank_data vd ftd k opt = .ok res →
      res.items.Nodup
      ∧ ((opt.rerank_type = "RRF" ∨ opt.rerank_type = "WeightedRank") →
          res.items.length ≤ k) := by
  intro vd ftd k opt res hok
  unfold rerank_data at hok
  by_cases h1 : opt.rerank_type == "RRF"
  · rw [if_pos h1] at hok
    cases hok
    exact ⟨(rrf_rerank_nodup_cap vd ftd k opt.rank_value).1,
      fun _ => by
        show ((rrf_rerank vd ftd k opt.rank_value).map Prod.snd).length ≤ k
        rw [List.length_map]
        exact (rrf_rerank_nodup_cap vd ftd k opt.rank_value).2⟩
  · rw [if_neg h1] at hok
    by_cases h2 : opt.rerank_type == "WeightedRank"
    · rw [if_pos h2] at hok
      cases hw : weighted_rank vd ftd k opt.weighted_score with
      | error e =>
        rw [hw] at hok
        exact Except.noConfusion hok
      | ok l =>
        rw [hw] at hok
        cases hok
        exact ⟨(weighted_rank_nodup_cap vd ftd k opt.weighted_score l hw).1,
          fun _ => by
            show (l.map Prod.snd).length ≤ k
            rw [List.length_map]
            exact (weighted_rank_nodup_cap vd ftd k opt.weighted_score l hw).2⟩
    · rw [if_neg h2] at hok
      cases hok
      refine ⟨firstSeenDedup_nodup _, fun hty => ?_⟩
      rcases hty with hty | hty
      · exact absurd (beq_iff_eq.mpr hty) h1
      · exact absurd (beq_iff_eq.mpr hty) h2

/-- Counterexample to C4 as stated: with a fallback rerank type, `rerank_data`
on lists of two items each with `k = 1` returns all four items, so the length
bound `≤ k` fails. -/
theorem c4_counterexample :
    rerank_data ["a", "b"] ["c", "d"] 1 ⟨"other", 0, [], 0⟩
      = .ok (.union ["a", "b", "c", "d"])
    ∧ ¬ ((RerankResult.union ["a", "b", "c", "d"]).items.length ≤ 1) := by
  exact ⟨rfl, by decide⟩

/-- Witness for C4 at a concrete RRF call. -/
theorem c4_witness :
    (RerankResult.rrf (rrf_rerank [] [] 5 60)).items.Nodup
    ∧ (((RerankOption.mk "RRF" 60 [] 0).rerank_type = "RRF"
        ∨ (RerankOption.mk "RRF" 60 [] 0).rerank_type = "WeightedRank") →
      (RerankResult.rrf (rrf_rerank [] [] 5 60)).items.length ≤ 5) :=
  c4_rerank_dedup_and_cap [] [] 5 ⟨"RRF", 60, [], 0⟩ (.rrf (rrf_rerank [] [] 5 60)) rfl

/-- A top-level entry whose key lowers to a bare operator makes
`build_filter_entry` raise. -/
theorem build_filter_entry_error_of_bare {key : String} (value : Json)
    (hop : operatorKeys.contains (pyLower key) = true) :
    build_filter_entry key value
      = .error ("ValueError: Operator " ++ key ++ " must be followed by a meta key.") := by
  have h1 : (pyLower key == "$and") = false := by
    cases hbeq : pyLower key == "$and"
    · rfl
    · exfalso
      rw [beq_iff_eq.mp hbeq] at hop
      exact absurd hop (by decide)
  have h2 : (pyLower key == "$or") = false := by
    cases hbeq : pyLower key == "$or"
    · rfl
    · exfalso
      rw [beq_iff_eq.mp hbeq] at hop
      exact absurd hop (by decide)
  unfold build_filter_entry
  rw [h1, h2]
  simp only [Bool.false_eq_true, if_false]
  rw [if_pos hop]

/-- Processing a top-level dict that contains a bare operator key raises. -/
theorem build_filter_entries_error_of_bare :
    ∀ (fs : List (String × Json)),
      (∃ kv ∈ fs, operatorKeys.contains (pyLower kv.1) = true) →
      ∃ msg, build_filter_entries fs = .error msg := by
  intro fs
  induction fs with
  | nil =>
    rintro ⟨kv, hmem, _⟩
    cases hmem
  | cons kv rest ih =>
    rintro ⟨kv', hmem, hop⟩
    obtain ⟨key, value⟩ := kv
    rcases List.mem_cons.mp hmem with rfl | hmem'
    · refine ⟨"ValueError: Operator " ++ key ++ " must be followed by a meta key.", ?_⟩
      unfold build_filter_entries
      rw [build_filter_entry_error_of_bare value hop]
    · cases hbe : build_filter_entry key value with
      | error e =>
        refine ⟨e, ?_⟩
        unfold build_filter_entries
        rw [hbe]
      | ok cs =>
        rcases ih ⟨kv', hmem', hop⟩ with ⟨m, hm⟩
        refine ⟨m, ?_⟩
        unfold build_filter_entries
        rw [hbe, hm]

/-- C5: a filter whose top level contains a bare operator key fails to compile
with a configuration error; the documented example compiles to a conjunction
holding exactly an equality predicate and a greater-than predicate. -/
theorem c5_bare_operator_rejected :
    (∀ (filters : List (String × Json)),
        (∃ kv ∈ filters, operatorKeys.contains (pyLower kv.1) = true) →
        ∃ msg, build_filter_clause (some filters) = .error msg)
    ∧ build_filter_clause (some [("$gt", Json.num 5)])
        = .error "ValueError: Operator $gt must be followed by a meta key."
    ∧ build_filter_clause (some [("$and", Json.arr
        [Json.obj [("a", Json.num 1)], Json.obj [("b", Json.obj [("$gt", Json.num 5)])]])])
      = .ok (Clause.and_ [Clause.true_, Clause.and_
          [Clause.and_ [Clause.true_, Clause.leaf .opEq "a" (Json.num 1)],
           Clause.and_ [Clause.true_, Clause.leaf .opGt "b" (Json.num 5)]]])
    ∧ (∀ (sem : FilterOp → String → Json → Bool) (idSem : List String → Bool),
        Clause.holdsB sem idSem (Clause.and_ [Clause.true_, Clause.and_
          [Clause.and_ [Clause.true_, Clause.leaf .opEq "a" (Json.num 1)],
           Clause.and_ [Clause.true_, Clause.leaf .opGt "b" (Json.num 5)]]])
          = (sem .opEq "a" (Json.num 1) && sem .opGt "b" (Json.num 5))) := by
  refine ⟨?_, rfl, rfl, ?_⟩
  · intro filters hex
    rcases build_filter_entries_error_of_bare filters hex with ⟨m, hm⟩
    refine ⟨m, ?_⟩
    have hdef : build_filter_clause (some filters)
        = match build_filter_entries filters with
          | .error e => Except.error e
          | .ok cs => .ok (Clause.and_ (Clause.true_ :: cs)) := rfl
    rw [hdef, hm]
  · intro sem idSem
    simp [Clause.holdsB, Clause.allHoldB, Clause.anyHoldB, Bool.and_assoc]

/-- Witness for C5: the bare-operator filter `{"$gt": 5}` raises. -/
theorem c5_witness :
    ∃ msg, build_filter_clause (some [("$gt", Json.num 5)]) = .error msg :=
  c5_bare_operator_rejected.1 [("$gt", Json.num 5)]
    ⟨("$gt", Json.num 5), List.mem_cons_self _ _, by decide⟩

/-- Skipping non-dict elements: the `$and`/`$or` comprehension gives the same
clauses on a list as on its dict-only sublist. -/
theorem build_filter_conditions_filter :
    ∀ (elems : List Json),
      build_filter_conditions (elems.filter Json.isObj) = build_filter_conditions elems := by
  intro elems
  induction elems with
  | nil => rfl
  | cons c rest ih =>
    cases c with
    | obj entries =>
      rw [List.filter_cons_of_pos (by rfl)]
      unfold build_filter_conditions
      rw [ih]
    | null => rw [List.filter_cons_of_neg (by simp [Json.isObj])]; exact ih.trans rfl
    | bool b => rw [List.filter_cons_of_neg (by simp [Json.isObj])]; exact ih.trans rfl
    | num q => rw [List.filter_cons_of_neg (by simp [Json.isObj])]; exact ih.trans rfl
    | str s => rw [List.filter_cons_of_neg (by simp [Json.isObj])]; exact ih.trans rfl
    | arr l => rw [List.filter_cons_of_neg (by simp [Json.isObj])]; exact ih.trans rfl

/-- A nested mapping with no recognized operator key compiles to no clause. -/
theorem create_filter_clause_none (key : String) {entries : List (String × Json)}
    (h : ∀ kv ∈ entries, operatorKeys.contains (pyLower kv.1) = false) :
    create_filter_clause key entries = none := by
  have hop : ∀ op, op ∈ operatorKeys → hasOpKey entries op = false := by
    intro op hopmem
    rw [hasOpKey, List.any_eq_false]
    intro kv hkv hbeq
    have heq : pyLower kv.1 = op := beq_iff_eq.mp hbeq
    have : operatorKeys.contains (pyLower kv.1) = true := by
      rw [heq]
      exact List.elem_iff.mpr hopmem
    rw [h kv hkv] at this
    exact Bool.false_ne_true this
  unfold create_filter_clause
  rw [hop "$in" (by decide), hop "$nin" (by decide), hop "$gt" (by decide),
    hop "$gte" (by decide), hop "$lt" (by decide), hop "$lte" (by decide),
    hop "$ne" (by decide), hop "$eq" (by decide)]
  rfl

/-- C6: the compiler is lenient in exactly the two documented places and never
fails there: non-dict elements under `$and`/`$or` are skipped (same result as
compiling only the dict elements), and a field whose nested mapping has no
recognized operator compiles to no clause (`ok []`), not an error. -/
theorem c6_filter_compiler_leniency :
    (∀ (key : String) (elems : List Json),
        (pyLower key = "$and" ∨ pyLower key = "$or") →
        build_filter_entry key (Json.arr elems)
          = build_filter_entry key (Json.arr (elems.filter Json.isObj)))
    ∧ (∀ (key : String) (entries : List (String × Json)),
        pyLower key ≠ "$and" → pyLower key ≠ "$or" →
        operatorKeys.contains (pyLower key) = false →
        (∀ kv ∈ entries, operatorKeys.contains (pyLower kv.1) = false) →
        build_filter_entry key (Json.obj entries) = .ok []) := by
  constructor
  · intro key elems hkey
    rcases hkey with h | h <;>
      · unfold build_filter_entry
        rw [h]
        simp [build_filter_conditions_filter]
  · intro key entries h1 h2 hop hkv
    unfold build_filter_entry
    have hb1 : (pyLower key == "$and") = false := beq_eq_false_iff_ne.mpr h1
    have hb2 : (pyLower key == "$or") = false := beq_eq_false_iff_ne.mpr h2
    rw [hb1, hb2, hop]
    simp only [Bool.false_eq_true, if_false]
    rw [create_filter_clause_none key hkv]

/-- Witness for C6: a numeric element under `$and` is skipped, and an
unrecognized nested operator yields no clause and no error. -/
theorem c6_witness :
    build_filter_entry "$and" (Json.arr [Json.num 3, Json.obj [("a", Json.num 1)]])
      = build_filter_entry "$and"
          (Json.arr (List.filter Json.isObj [Json.num 3, Json.obj [("a", Json.num 1)]]))
    ∧ build_filter_entry "x" (Json.obj [("$weird", Json.num 1)]) = .ok [] := by
  constructor
  · exact c6_filter_compiler_leniency.1 "$and" [Json.num 3, Json.obj [("a", Json.num 1)]]
      (Or.inl (by decide))
  · exact c6_filter_compiler_leniency.2 "x" [("$weird", Json.num 1)]
      (by decide) (by decide) (by decide) (by decide)

/-- C7: `arctan_normalize` equals `(1/pi)*atan(x) + 0.5`, maps every real into
the open interval `(0, 1)`, is strictly increasing, and takes the values 0.5,
0.75, 0.25 at 0, 1, -1 respectively. -/
theorem c7_arctan_normalize_properties :
    (∀ x : ℝ, arctan_normalize x = (1 / Real.pi) * Real.arctan x + 0.5)
    ∧ (∀ x : ℝ, arctan_normalize x ∈ Set.Ioo (0 : ℝ) 1)
    ∧ StrictMono arctan_normalize
    ∧ arctan_normalize 0 = 0.5
    ∧ arctan_normalize 1 = 0.75
    ∧ arctan_normalize (-1) = 0.25 := by
  have hpi : (0:ℝ) < Real.pi := Real.pi_pos
  have hne : Real.pi ≠ 0 := Real.pi_ne_zero
  have hinv : (0:ℝ) < 1 / Real.pi := by positivity
  refine ⟨fun x => by norm_num [arctan_normalize], ?_, ?_, ?_, ?_, ?_⟩
  · intro x
    have h1 : Real.arctan x < Real.pi / 2 := Real.arctan_lt_pi_div_two x
    have h2 : -(Real.pi / 2) < Real.arctan x := Real.neg_pi_div_two_lt_arctan x
    have hu : (1 / Real.pi) * Real.arctan x < (1 / Real.pi) * (Real.pi / 2) :=
      (mul_lt_mul_left hinv).mpr h1
    have hl : (1 / Real.pi) * (-(Real.pi / 2)) < (1 / Real.pi) * Real.arctan x :=
      (mul_lt_mul_left hinv).mpr h2
    have hequ : (1 / Real.pi) * (Real.pi / 2) = (1/2 : ℝ) := by field_simp
    have heql : (1 / Real.pi) * (-(Real.pi / 2)) = -(1/2 : ℝ) := by field_simp
    rw [hequ] at hu
    rw [heql] at hl
    unfold arctan_normalize
    rw [Set.mem_Ioo, show (0.5 : ℝ) = 1/2 from by norm_num,
      show (1.0 : ℝ) = 1 from by norm_num]
    constructor
    · linarith
    · linarith
  · intro a b hab
    unfold arctan_normalize
    have h := Real.arctan_strictMono hab
    have h2 : (1.0 / Real.pi) * Real.arctan a < (1.0 / Real.pi) * Real.arctan b := by
      apply (mul_lt_mul_left (by positivity)).mpr h
    linarith
  · unfold arctan_normalize
    rw [Real.arctan_zero]
    norm_num
  · unfold arctan_normalize
    rw [Real.arctan_one]
    rw [show (1.0 : ℝ) = 1 from by norm_num, show (0.5 : ℝ) = 1/2 from by norm_num,
      show (0.75 : ℝ) = 3/4 from by norm_num]
    field_simp
    ring
  · unfold arctan_normalize
    rw [show ((-1 : ℝ)) = -(1:ℝ) from by norm_num, Real.arctan_neg, Real.arctan_one]
    rw [show (1.0 : ℝ) = 1 from by norm_num, show (0.5 : ℝ) = 1/2 from by norm_num,
      show (0.25 : ℝ) = 1/4 from by norm_num]
    field_simp
    ring

/-- C10: `delete` with neither ids nor filter compiles the absent filter to the
always-true predicate and removes every record; with both given, exactly the
records satisfying the conjunction of `id IN ids` and the compiled filter are
removed. -/
theorem c10_delete_conjunction :
    (build_filter_clause none = .ok Clause.true_)
    ∧ (∀ (sem : FilterOp → String → Json → Bool) (idSem : List String → Bool),
        Clause.holdsB sem idSem Clause.true_ = true)
    ∧ (∀ (sem : FilterOp → String → Json → Json → Bool) (table : List Record),
        delete sem table none none = .ok [])
    ∧ (∀ (sem : FilterOp → String → Json → Json → Bool) (table : List Record)
        (ids : List String) (f : List (String × Json)) (fc : Clause),
        build_filter_clause (some f) = .ok fc →
        delete sem table (some ids) (some f)
          = .ok (table.filter (fun r =>
              !(ids.contains r.id
                && Clause.holdsB (fun op key v => sem op key v r.meta)
                    (fun l => l.contains r.id) fc)))) := by
  refine ⟨rfl, fun _ _ => rfl, ?_, ?_⟩
  · intro sem table
    have hdef : delete sem table none none
        = .ok (table.filter (fun r =>
            !(Clause.holdsB (fun op key v => sem op key v r.meta)
                (fun l => l.contains r.id) Clause.true_))) := rfl
    rw [hdef]
    simp [Clause.holdsB]
  · intro sem table ids f fc hfc
    have hdef : delete sem table (some ids) (some f)
        = match build_filter_clause (some f) with
          | .error e => .error e
          | .ok fc' => .ok (table.filter (fun r =>
              !(Clause.holdsB (fun op key v => sem op key v r.meta)
                  (fun l => l.contains r.id) (Clause.and_ [Clause.idIn ids, fc'])))) := rfl
    rw [hdef, hfc]
    show Except.ok (table.filter (fun r =>
        !(Clause.holdsB (fun op key v => sem op key v r.meta)
            (fun l => l.contains r.id) (Clause.and_ [Clause.idIn ids, fc])))) = _
    congr 1
    apply List.filter_congr
    intro r _
    simp [Clause.holdsB, Clause.allHoldB]

/-- Witness for C10: a two-record table, one matching id, a trivial leaf
semantics, and the compiled filter for `{"a": 1}`. -/
theorem c10_witness :
    delete (fun _ _ _ _ => true) [⟨"i1", Json.null⟩, ⟨"i2", Json.null⟩]
        (some ["i1"]) (some [("a", Json.num 1)])
      = .ok ([(⟨"i1", Json.null⟩ : Record), ⟨"i2", Json.null⟩].filter (fun r =>
          !(["i1"].contains r.id
            && Clause.holdsB (fun op key v => (fun _ _ _ _ => true) op key v r.meta)
                (fun l => l.contains r.id)
                (Clause.and_ [Clause.true_, Clause.leaf .opEq "a" (Json.num 1)])))) :=
  c10_delete_conjunction.2.2.2 (fun _ _ _ _ => true) _ ["i1"] [("a", Json.num 1)]
    (Clause.and_ [Clause.true_, Clause.leaf .opEq "a" (Json.num 1)]) rfl

/-- Inserting into a descending-sorted list keeps it descending-sorted. -/
theorem insertDescScore_sorted {α : Type} [LinearOrder α] (x : String × α)
    {l : List (String × α)} (h : l.Pairwise (fun a b => b.2 ≤ a.2)) :
    (insertDescScore x l).Pairwise (fun a b => b.2 ≤ a.2) := by
  induction l with
  | nil => simp [insertDescScore]
  | cons y ys ih =>
    rw [List.pairwise_cons] at h
    obtain ⟨hy, hys⟩ := h
    unfold insertDescScore
    split
    · next hlt =>
      rw [List.pairwise_cons]
      refine ⟨?_, ih hys⟩
      intro z hz
      rcases List.mem_cons.mp ((insertDescScore_perm x ys).mem_iff.mp hz) with rfl | hzys
      · exact le_of_lt hlt
      · exact hy z hzys
    · next hge =>
      push_neg at hge
      rw [List.pairwise_cons]
      refine ⟨?_, List.pairwise_cons.mpr ⟨hy, hys⟩⟩
      intro z hz
      rcases List.mem_cons.mp hz with rfl | hzys
      · exact hge
      · exact le_trans (hy z hzys) hge

/-- The score sort used to model Python `sorted(..., reverse=True)` really
produces a descending-by-score list. -/
theorem sortDescScore_sorted {α : Type} [LinearOrder α] (l : List (String × α)) :
    (sortDescScore l).Pairwise (fun a b => b.2 ≤ a.2) := by
  induction l with
  | nil => simp [sortDescScore]
  | cons x xs ih => exact insertDescScore_sorted x ih
